import Mathlib

/-!
Shallow embedding of the prompt-manager core (merge engine, attachment
graph, ordering utilities) together with proofs about the embedded code.

The definitions mirror, function by function, the Python source:
- app/models/attached_prompt.py, app/models/prompt.py (data model)
- app/repositories/attached_prompt_repository.py
- app/repositories/prompt_repository.py
- app/services/attached_prompt_service.py
- app/services/merge_service.py
- app/services/prompt_service.py

Databases are modelled as lists of rows; SQLAlchemy filter_by queries
become List.filter, order_by becomes a stable insertion sort, mutation
becomes a pure state update.  Python ints are Int where negative values
matter (the order column) and Nat for identifiers and counters.
-/

namespace PromptManager

/-- Row of the prompts table (app/models/prompt.py): identity, title,
content, optional description, soft-delete flag, manual order. -/
structure Prompt where
  id : Nat
  title : String
  content : String
  description : Option String
  is_active : Bool
  order : Int
deriving DecidableEq, Repr

/-- Row of the attached_prompts table (app/models/attached_prompt.py):
directed edge main_prompt_id → attached_prompt_id with display order and
usage counter. -/
structure AttachedPrompt where
  main_prompt_id : Nat
  attached_prompt_id : Nat
  order : Int
  usage_count : Nat
deriving DecidableEq, Repr

/-- Database state: the prompts table and the attached_prompts table. -/
structure DB where
  prompts : List Prompt
  edges : List AttachedPrompt
deriving DecidableEq, Repr

/-- PromptRepository.get_by_id: first row with the given id (SQLAlchemy
query.get). -/
def getById (prompts : List Prompt) (pid : Nat) : Option Prompt :=
  prompts.find? (fun p => p.id == pid)

/-- AttachedPromptRepository.get_prompts_attached_to: all edges where the
given prompt is the attached endpoint, ordered by the order column. -/
def getPromptsAttachedTo (edges : List AttachedPrompt) (pid : Nat) :
    List AttachedPrompt :=
  (edges.filter (fun e => e.attached_prompt_id == pid)).insertionSort
    (fun e₁ e₂ => e₁.order ≤ e₂.order)

/-- Main endpoints reachable in one step of the circle check from a node:
the main_prompt_id of every edge in which the node is the attached
endpoint (the loop body of AttachedPromptService._has_path_to). -/
def succsRev (edges : List AttachedPrompt) (x : Nat) : List Nat :=
  (getPromptsAttachedTo edges x).map (fun e => e.main_prompt_id)

/-- AttachedPromptService._has_path_to: depth-first search from start
towards target, following edges attached→main, threading the (shared,
mutable in Python) visited set across the sibling loop.  The fuel
argument makes the recursion structural; wouldCreateCircle supplies
enough fuel that it is never exhausted. -/
def hasPathTo (edges : List AttachedPrompt) (target : Nat) :
    Nat → Nat → List Nat → Bool × List Nat
  | 0, _, visited => (false, visited)
  | fuel + 1, start, visited =>
    if start = target then (true, visited)
    else if start ∈ visited then (false, visited)
    else
      (succsRev edges start).foldl
        (fun acc y => if acc.1 then acc else hasPathTo edges target fuel y acc.2)
        (false, start :: visited)

/-- The for-loop of _has_path_to over a list of successor nodes: try each
in turn, returning true at the first success, and threading the visited
set across the siblings (an early return leaves the fold constant). -/
def hasPathList (edges : List AttachedPrompt) (target : Nat) (fuel : Nat)
    (ys : List Nat) (visited : List Nat) : Bool × List Nat :=
  ys.foldl
    (fun acc y => if acc.1 then acc else hasPathTo edges target fuel y acc.2)
    (false, visited)

/-- AttachedPromptService._would_create_circle: run the DFS from the
attached endpoint looking for the main endpoint, with an empty initial
visited set.  The fuel edges.length + 2 exceeds the depth the Python
recursion can reach (each nested call permanently marks a fresh node). -/
def wouldCreateCircle (edges : List AttachedPrompt) (main_id attached_id : Nat) :
    Bool :=
  (hasPathTo edges main_id (edges.length + 2) attached_id []).1

/-- One step of the walk used by the circle check: x steps to y when some
existing edge has x as its attached endpoint and y as its main endpoint. -/
def stepRev (edges : List AttachedPrompt) (x y : Nat) : Prop :=
  ∃ e ∈ edges, e.attached_prompt_id = x ∧ e.main_prompt_id = y

/-- One step of the forward attachment relation: x steps to y when some
existing edge has x as its main endpoint and y as its attached endpoint. -/
def stepFwd (edges : List AttachedPrompt) (x y : Nat) : Prop :=
  ∃ e ∈ edges, e.main_prompt_id = x ∧ e.attached_prompt_id = y

/-- AttachedPromptRepository.exists: some row matches both endpoints. -/
def edgeExists (edges : List AttachedPrompt) (main_id attached_id : Nat) :
    Bool :=
  edges.any (fun e =>
    e.main_prompt_id == main_id && e.attached_prompt_id == attached_id)

/-- AttachedPromptRepository.get_attachment_count: number of edges whose
main endpoint is the given prompt. -/
def getAttachmentCount (edges : List AttachedPrompt) (main_id : Nat) : Nat :=
  (edges.filter (fun e => e.main_prompt_id == main_id)).length

/-- AttachedPromptRepository.get_max_order: maximum order among the edges
of a main prompt (SQL max), or -1 when it has none. -/
def getMaxOrder (edges : List AttachedPrompt) (main_id : Nat) : Int :=
  match (edges.filter (fun e => e.main_prompt_id == main_id)).map
      (fun e => e.order) with
  | [] => -1
  | o :: os => os.foldl max o

/-- Typed failures raised by AttachedPromptService.attach_prompt, in the
order the Python checks run. -/
inductive AttachErr where
  | mainMissing (main_id : Nat)
  | attachedMissing (attached_id : Nat)
  | mainInactive (main_id : Nat)
  | attachedInactive (attached_id : Nat)
  | selfAttach
  | circular
  | alreadyAttached (main_id attached_id : Nat)
  | limitReached (main_id : Nat)
deriving DecidableEq, Repr

/-- AttachedPromptRepository.attach_prompt: re-check uniqueness, then
insert a new row with the given order and usage_count 0 (the column
default in app/models/attached_prompt.py). -/
def repoAttachPrompt (db : DB) (main_id attached_id : Nat) (order : Int) :
    Except AttachErr (AttachedPrompt × DB) :=
  if edgeExists db.edges main_id attached_id then
    .error (.alreadyAttached main_id attached_id)
  else
    let e : AttachedPrompt :=
      { main_prompt_id := main_id, attached_prompt_id := attached_id,
        order := order, usage_count := 0 }
    .ok (e, { db with edges := db.edges ++ [e] })

/-- AttachedPromptService.attach_prompt: existence and activity checks,
self-attach check, circle check, duplicate check, degree-limit check, then
insert with order = get_max_order + 1. -/
def attachPrompt (db : DB) (main_id attached_id : Nat) :
    Except AttachErr (AttachedPrompt × DB) :=
  match getById db.prompts main_id with
  | none => .error (.mainMissing main_id)
  | some main_prompt =>
  match getById db.prompts attached_id with
  | none => .error (.attachedMissing attached_id)
  | some attached_prompt =>
  if !main_prompt.is_active then .error (.mainInactive main_id)
  else if !attached_prompt.is_active then .error (.attachedInactive attached_id)
  else if main_id = attached_id then .error .selfAttach
  else if wouldCreateCircle db.edges main_id attached_id then .error .circular
  else if edgeExists db.edges main_id attached_id then
    .error (.alreadyAttached main_id attached_id)
  else if 10 ≤ getAttachmentCount db.edges main_id then
    .error (.limitReached main_id)
  else
    repoAttachPrompt db main_id attached_id (getMaxOrder db.edges main_id + 1)

/-- AttachedPromptRepository.detach_prompt: delete the first matching row,
report whether anything was removed. -/
def detachPrompt (db : DB) (main_id attached_id : Nat) : Bool × DB :=
  if edgeExists db.edges main_id attached_id then
    (true, { db with edges := db.edges.eraseP (fun e =>
      e.main_prompt_id == main_id && e.attached_prompt_id == attached_id) })
  else (false, db)

/-- AttachedPromptRepository.reorder_attached_prompts: apply each
(attached_prompt_id, new_order) pair to the matching edge of the given
main prompt; pairs without a matching edge are skipped. -/
def reorderAttachedPrompts (db : DB) (main_id : Nat)
    (order_map : List (Nat × Int)) : DB :=
  { db with edges := order_map.foldl (fun es kv =>
      es.map (fun e =>
        if e.main_prompt_id == main_id && e.attached_prompt_id == kv.1 then
          { e with order := kv.2 }
        else e)) db.edges }

/-- AttachedPromptService.reorder_attachments: check the main prompt
exists, build the order dict from the submitted pairs, apply it. -/
def pyDictStep {β : Type} (d : List (Nat × β)) (k : Nat) (v : β) :
    List (Nat × β) :=
  if d.any (fun kv => kv.1 == k) then
    d.map (fun kv => if kv.1 == k then (k, v) else kv)
  else d ++ [(k, v)]

/-- Python dict built by inserting the pairs left to right: first
occurrence fixes the key position, the last value for a key wins. -/
def pyDict {β : Type} (pairs : List (Nat × β)) : List (Nat × β) :=
  pairs.foldl (fun d kv => pyDictStep d kv.1 kv.2) []

/-- AttachedPromptService.reorder_attachments (service wrapper). -/
def reorderAttachments (db : DB) (main_id : Nat)
    (order_data : List (Nat × Int)) : Except AttachErr DB :=
  match getById db.prompts main_id with
  | none => .error (.mainMissing main_id)
  | some _ => .ok (reorderAttachedPrompts db main_id (pyDict order_data))

/-- Row returned by AttachedPromptRepository.get_popular_combinations.
The source joins the prompts table once, on the main endpoint, and labels
Prompt.title both as main_title and as attached_title, so both fields are
read from the main endpoint prompt. -/
structure ComboRow where
  main_prompt_id : Nat
  attached_prompt_id : Nat
  usage_count : Nat
  main_title : String
  attached_title : String
deriving DecidableEq, Repr

/-- AttachedPromptRepository.get_popular_combinations: inner-join edges
with prompts on main_prompt_id = id, keep usage_count > 0, order by
usage_count descending, take limit, label both title columns from the
joined (main) prompt. -/
def getPopularCombinations (db : DB) (limit : Nat) : List ComboRow :=
  let joined := db.edges.filterMap (fun e =>
    (getById db.prompts e.main_prompt_id).map (fun p => (e, p)))
  let filtered := joined.filter (fun ep => 0 < ep.1.usage_count)
  let sorted := filtered.insertionSort
    (fun a b => b.1.usage_count ≤ a.1.usage_count)
  (sorted.take limit).map (fun ep =>
    { main_prompt_id := ep.1.main_prompt_id,
      attached_prompt_id := ep.1.attached_prompt_id,
      usage_count := ep.1.usage_count,
      main_title := ep.2.title,
      attached_title := ep.2.title })

/-- PromptRepository.bulk_update_order: for each (prompt_id, new_order)
pair of the mapping, set the order of the matching prompt if it exists,
skipping ids with no matching row. -/
def bulkUpdateOrder (prompts : List Prompt)
    (order_mapping : List (Nat × Int)) : List Prompt :=
  order_mapping.foldl (fun s kv =>
    s.map (fun p => if p.id == kv.1 then { p with order := kv.2 } else p)) prompts

/-- PromptService.reorder_prompts: build the dict id → positional index
from the ordered id list and hand it to bulk_update_order. -/
def reorderPrompts (prompts : List Prompt) (ordered_ids : List Nat) :
    List Prompt :=
  bulkUpdateOrder prompts
    (pyDict (ordered_ids.enum.map (fun p => (p.2, Int.ofNat p.1))))

/-! ### Merge engine (app/services/merge_service.py) -/

/-- Worker for Python str.replace, structurally recursive on a fuel that
callers set to the length of the scanned string (each step consumes at
least one character, so the fuel is never exhausted). -/
def replaceCharsAux (pat rep : List Char) : Nat → List Char → List Char
  | 0, s => s
  | _, [] => []
  | fuel + 1, c :: cs =>
    if pat.isPrefixOf (c :: cs) then
      rep ++ replaceCharsAux pat rep fuel ((c :: cs).drop pat.length)
    else c :: replaceCharsAux pat rep fuel cs

/-- Python str.replace: left-to-right, non-overlapping replacement of
every occurrence of pat by rep; the spliced-in rep is not rescanned. -/
def replaceChars (s pat rep : List Char) : List Char :=
  match pat with
  | [] => s
  | _ :: _ => replaceCharsAux pat rep s.length s

/-- Python str.replace lifted to String. -/
def pyReplace (s pat rep : String) : String :=
  (replaceChars s.toList pat.toList rep.toList).asString

/-- Replacement of only the first occurrence, used to model
str.format with a single positional placeholder. -/
def replaceFirstChars (s pat rep : List Char) : List Char :=
  match pat with
  | [] => s
  | _ :: _ =>
    match s with
    | [] => []
    | c :: cs =>
      if pat.isPrefixOf (c :: cs) then rep ++ (c :: cs).drop pat.length
      else c :: replaceFirstChars cs pat rep

/-- Python number_format.format(i) for a one-placeholder format string. -/
def pyFormat1 (fmt arg : String) : String :=
  (replaceFirstChars fmt.toList "\x7b\x7d".toList arg.toList).asString

/-- Placeholder text for a template key: the key wrapped in braces. -/
def ph (k : String) : String := "\x7b" ++ k ++ "\x7d"

/-- MergeService.DEFAULT_SEPARATOR. -/
def DEFAULT_SEPARATOR : String := "\n\n---\n\n"

/-- MergeService.DEFAULT_BULLET (the source file holds these exact
characters). -/
def DEFAULT_BULLET : String := "â€¢ "

/-- MergeService.DEFAULT_NUMBER_FORMAT. -/
def DEFAULT_NUMBER_FORMAT : String := "\x7b\x7d. "

/-- The options dict of merge_prompts; absent keys are represented by the
defaults Python supplies at each options.get call site. -/
structure MergeOptions where
  include_title : Bool := true
  include_description : Bool := false
  separator : Option String := none
  template : Option String := none
  number_format : Option String := none
  bullet : Option String := none
deriving DecidableEq, Repr

/-- Typed failures raised by MergeService.merge_prompts. -/
inductive MergeErr where
  | noIds
  | tooFew
  | notFound (missing : Finset Nat)
  | templateRequired
  | emptyTemplate
  | unknownStrategy (name : String)
deriving DecidableEq

/-- PromptRepository.get_by_ids: rows whose id is in the list, in table
order (the SQL sends no order_by, so callers must re-sort). -/
def getByIds (prompts : List Prompt) (ids : List Nat) : List Prompt :=
  prompts.filter (fun p => ids.contains p.id)

/-- MergeService.simple_concatenation. -/
def simpleConcatenation (prompts : List Prompt) (o : MergeOptions) : String :=
  String.intercalate "\n\n" (prompts.map (fun p =>
    if o.include_title then "## " ++ p.title ++ "\n\n" ++ p.content
    else p.content))

/-- MergeService.with_separators: optional heading, optional non-empty
description, body, joined inside each block by blank lines and across
blocks by the separator. -/
def withSeparators (prompts : List Prompt) (sep : String) (o : MergeOptions) :
    String :=
  String.intercalate sep (prompts.map (fun p =>
    let parts₁ : List String := if o.include_title then ["## " ++ p.title] else []
    let parts₂ : List String :=
      match p.description with
      | some d => if o.include_description && !(d == "") then ["*" ++ d ++ "*"] else []
      | none => []
    String.intercalate "\n\n" (parts₁ ++ parts₂ ++ [p.content])))

/-- MergeService.numbered_merge: 1-based numbering in list order. -/
def numberedMerge (prompts : List Prompt) (o : MergeOptions) : String :=
  let nf := o.number_format.getD DEFAULT_NUMBER_FORMAT
  String.intercalate "\n\n" ((prompts.enumFrom 1).map (fun ip =>
    if o.include_title then
      pyFormat1 nf (toString ip.1) ++ " **" ++ ip.2.title ++ "**\n\n" ++ ip.2.content
    else
      pyFormat1 nf (toString ip.1) ++ " " ++ ip.2.content))

/-- MergeService.bulleted_merge: bullet prefix, body line breaks indented
two spaces. -/
def bulletedMerge (prompts : List Prompt) (o : MergeOptions) : String :=
  let bullet := o.bullet.getD DEFAULT_BULLET
  String.intercalate "\n\n" (prompts.map (fun p =>
    if o.include_title then
      bullet ++ "**" ++ p.title ++ "**\n  " ++ pyReplace p.content "\n" "\n  "
    else
      bullet ++ pyReplace p.content "\n" "\n  "))

/-- The variables dict of MergeService.structured_merge, in Python dict
insertion order: count, titles, prompts, then the per-index group for each
prompt (1-based). -/
def templateVars (prompts : List Prompt) : List (String × String) :=
  [("count", toString prompts.length),
   ("titles", String.intercalate ", " (prompts.map (fun p => p.title))),
   ("prompts", String.intercalate "\n\n" (prompts.map (fun p => p.content)))] ++
  (prompts.enumFrom 1).flatMap (fun ip =>
    [("prompt_" ++ toString ip.1, ip.2.title ++ "\n\n" ++ ip.2.content),
     ("title_" ++ toString ip.1, ip.2.title),
     ("content_" ++ toString ip.1, ip.2.content),
     ("description_" ++ toString ip.1, ip.2.description.getD "")])

/-- MergeService.structured_merge: sequential literal replacement of each
braced key by its value, in dict order. -/
def structuredMerge (prompts : List Prompt) (template : String) :
    Except MergeErr String :=
  if template = "" then .error .emptyTemplate
  else .ok ((templateVars prompts).foldl
    (fun r kv => pyReplace r (ph kv.1) kv.2) template)

/-- The id_order dict of merge_prompts: id → its index in the supplied
list, and the sort key read from it (fetched prompts always have their id
in the dict, so the 0 default is never consulted). -/
def idOrderKey (prompt_ids : List Nat) (pid : Nat) : Nat :=
  ((pyDict (prompt_ids.enum.map (fun p => (p.2, p.1)))).lookup pid).getD 0

/-- prompts.sort(key=lambda p: id_order[p.id]): Python sort is stable, so
a stable insertion sort on the same key. -/
def sortByIdOrder (prompt_ids : List Nat) (prompts : List Prompt) :
    List Prompt :=
  prompts.insertionSort
    (fun p q => idOrderKey prompt_ids p.id ≤ idOrderKey prompt_ids q.id)

/-- The strategy dispatch of merge_prompts, applied to the ordered prompt
list (the body of the if/elif chain). -/
def renderStrategy (strategy : String) (o : MergeOptions)
    (prompts : List Prompt) : Except MergeErr String :=
  if strategy = "simple" then .ok (simpleConcatenation prompts o)
  else if strategy = "separator" then
    .ok (withSeparators prompts (o.separator.getD DEFAULT_SEPARATOR) o)
  else if strategy = "numbered" then .ok (numberedMerge prompts o)
  else if strategy = "bulleted" then .ok (bulletedMerge prompts o)
  else if strategy = "template" then
    match o.template with
    | none => .error .templateRequired
    | some t => if t = "" then .error .templateRequired else structuredMerge prompts t
  else .error (.unknownStrategy strategy)

/-- Result of merge_prompts: merged text plus the metadata fields whose
values are data (the wall-clock merged_at timestamp and the echoed options
are omitted from the model). -/
structure MergeResult where
  merged_content : String
  strategy : String
  prompt_count : Nat
  prompt_ids : List Nat
  prompt_titles : List String
deriving DecidableEq, Repr

/-- MergeService.merge_prompts: input validation, fetch, count check with
missing-id reporting, sort into input order, strategy dispatch,
metadata. -/
def mergePrompts (db : List Prompt) (prompt_ids : List Nat)
    (strategy : String) (o : MergeOptions) : Except MergeErr MergeResult :=
  if prompt_ids = [] then .error .noIds
  else if prompt_ids.length < 2 then .error .tooFew
  else
    let prompts := getByIds db prompt_ids
    if prompts.length ≠ prompt_ids.length then
      .error (.notFound (prompt_ids.toFinset \
        (prompts.map (fun p => p.id)).toFinset))
    else
      let sorted := sortByIdOrder prompt_ids prompts
      (renderStrategy strategy o sorted).map (fun content =>
        { merged_content := content, strategy := strategy,
          prompt_count := sorted.length, prompt_ids := prompt_ids,
          prompt_titles := sorted.map (fun p => p.title) })

/-- Hard errors reported by MergeService.validate_merge. -/
inductive ValidationErr where
  | atLeastTwoRequired
  | duplicateIds
  | promptsNotFound (missing : Finset Nat)
deriving DecidableEq

/-- Warnings reported by MergeService.validate_merge. -/
inductive ValidationWarning where
  | inactiveIncluded (count : Nat)
  | largeContent (size : Nat)
deriving DecidableEq, Repr

/-- Result of MergeService.validate_merge. -/
structure ValidationResult where
  valid : Bool
  errors : List ValidationErr
  warnings : List ValidationWarning
deriving DecidableEq

/-- MergeService.validate_merge: minimum count, duplicate check via
len(set(ids)), unresolved-id check, inactive and size warnings. -/
def validateMerge (db : List Prompt) (prompt_ids : List Nat) :
    ValidationResult :=
  let errors₁ : List ValidationErr :=
    if prompt_ids.length < 2 then [.atLeastTwoRequired] else []
  let errors₂ := errors₁ ++
    (if prompt_ids.toFinset.card ≠ prompt_ids.length then
      [ValidationErr.duplicateIds] else [])
  let prompts := getByIds db prompt_ids
  let errors₃ := errors₂ ++
    (if prompts.length ≠ prompt_ids.length then
      [ValidationErr.promptsNotFound (prompt_ids.toFinset \
        (prompts.map (fun p => p.id)).toFinset)] else [])
  let inactive := prompts.filter (fun p => !p.is_active)
  let warnings₁ : List ValidationWarning :=
    if inactive.length ≠ 0 then [.inactiveIncluded inactive.length] else []
  let total := (prompts.map (fun p => p.content.length)).sum
  let warnings₂ := warnings₁ ++
    (if 50000 < total then [ValidationWarning.largeContent total] else [])
  { valid := errors₃.isEmpty, errors := errors₃, warnings := warnings₂ }

/-! ### Auxiliary definitions used by the statements and proofs -/

/-- Substring test (used to state facts about placeholder text occurring
in merge outputs). -/
def isInfixChars (needle : List Char) : List Char → Bool
  | [] => needle.isEmpty
  | c :: tl => needle.isPrefixOf (c :: tl) || isInfixChars needle tl

/-- Substring test on strings. -/
def strContains (hay needle : String) : Bool :=
  isInfixChars needle.toList hay.toList

instance {ε α : Type} [DecidableEq ε] [DecidableEq α] :
    DecidableEq (Except ε α) := fun x y =>
  match x, y with
  | .error a, .error b =>
    if h : a = b then isTrue (congrArg Except.error h)
    else isFalse (fun hc => h (by injection hc))
  | .ok a, .ok b =>
    if h : a = b then isTrue (congrArg Except.ok h)
    else isFalse (fun hc => h (by injection hc))
  | .error _, .ok _ => isFalse (fun hc => by injection hc)
  | .ok _, .error _ => isFalse (fun hc => by injection hc)

/-- The prompts of an id list fetched one by one, in the order of the id
list: the canonical input-ordered prompt list the merge contract speaks
about. -/
def orderedFetch (db : List Prompt) (ids : List Nat) : List Prompt :=
  ids.filterMap (fun i => getById db i)

/-- The per-prompt effect of bulk_update_order: apply every pair of the
mapping to one prompt. -/
def applyOrder (m : List (Nat × Int)) (p : Prompt) : Prompt :=
  m.foldl (fun q kv => if q.id == kv.1 then { q with order := kv.2 } else q) p

/-- The value the last pair of the mapping writes for a key, if any. -/
def lastVal (m : List (Nat × Int)) (k : Nat) : Option Int :=
  (m.reverse.find? (fun kv => kv.1 == k)).map (fun kv => kv.2)

/-- Main endpoints mentioned by an edge list, as a finite set (bounds the
nodes the circle-check walk can newly visit). -/
def mains (edges : List AttachedPrompt) : Finset Nat :=
  (edges.map (fun e => e.main_prompt_id)).toFinset

/-- Sample active prompt 1. -/
def pA : Prompt :=
  { id := 1, title := "A", content := "ca",
    description := none, is_active := true, order := 0 }

/-- Sample active prompt 2. -/
def pB : Prompt :=
  { id := 2, title := "B", content := "cb",
    description := none, is_active := true, order := 0 }

/-- Sample active prompt 3. -/
def pC : Prompt :=
  { id := 3, title := "C", content := "cc",
    description := none, is_active := true, order := 0 }

/-- Sample edge 1 → 2 (prompt 2 attached to prompt 1). -/
def edge12 : AttachedPrompt :=
  { main_prompt_id := 1, attached_prompt_id := 2, order := 0, usage_count := 0 }

/-- Sample edge 2 → 3. -/
def edge23 : AttachedPrompt :=
  { main_prompt_id := 2, attached_prompt_id := 3, order := 0, usage_count := 0 }

/-- Sample edge 1 → 2 with usage_count 5. -/
def edgeU : AttachedPrompt :=
  { main_prompt_id := 1, attached_prompt_id := 2, order := 0, usage_count := 5 }

/-- The forward edge 2 → 1 created by the second attach of the cycle
scenario. -/
def edge21 : AttachedPrompt :=
  { main_prompt_id := 2, attached_prompt_id := 1, order := 0, usage_count := 0 }

/-- The edge 1 → 3 with order 1 created by a second attach to prompt 1. -/
def edge13 : AttachedPrompt :=
  { main_prompt_id := 1, attached_prompt_id := 3, order := 1, usage_count := 0 }

/-- Prompt whose title contains the placeholder text for content_2. -/
def cp1 : Prompt :=
  { id := 1, title := "A" ++ ph "content_2",
    content := "c1", description := none, is_active := true, order := 0 }

/-- Companion prompt for cp1. -/
def cp2 : Prompt :=
  { id := 2, title := "B", content := "c2",
    description := none, is_active := true, order := 0 }

/-- Prompt whose title contains the placeholder text for count. -/
def cpCount : Prompt :=
  { id := 1, title := ph "count", content := "c1",
    description := none, is_active := true, order := 0 }

/-! ### Correctness of the circle-check DFS -/

theorem mem_succsRev {edges : List AttachedPrompt} {x y : Nat} :
    y ∈ succsRev edges x ↔ stepRev edges x y := by
  simp only [succsRev, getPromptsAttachedTo, stepRev, List.mem_map,
    List.mem_insertionSort, List.mem_filter, beq_iff_eq]
  constructor
  · rintro ⟨e, ⟨he, hxe⟩, hye⟩
    exact ⟨e, he, hxe, hye⟩
  · rintro ⟨e, he, hxe, hye⟩
    exact ⟨e, ⟨he, hxe⟩, hye⟩

theorem hasPathList_nil {edges : List AttachedPrompt} {target fuel : Nat}
    {v : List Nat} : hasPathList edges target fuel [] v = (false, v) := rfl

theorem dfs_foldl_true {edges : List AttachedPrompt} {target fuel : Nat} :
    ∀ (ys : List Nat) (w : List Nat),
      ys.foldl (fun acc y => if acc.1 then acc
        else hasPathTo edges target fuel y acc.2) (true, w) = (true, w) := by
  intro ys w
  induction ys with
  | nil => rfl
  | cons y ys ih => simpa using ih

theorem hasPathList_cons {edges : List AttachedPrompt} {target fuel : Nat}
    {y : Nat} {ys : List Nat} {v : List Nat} :
    hasPathList edges target fuel (y :: ys) v =
      match hasPathTo edges target fuel y v with
      | (true, w) => (true, w)
      | (false, w) => hasPathList edges target fuel ys w := by
  unfold hasPathList
  rcases hres : hasPathTo edges target fuel y v with ⟨b, w⟩
  cases b with
  | true => simp [List.foldl_cons, hres, dfs_foldl_true]
  | false => simp [List.foldl_cons, hres]

theorem hasPathTo_succ {edges : List AttachedPrompt} {target fuel : Nat}
    {s : Nat} {v : List Nat} :
    hasPathTo edges target (fuel + 1) s v =
      if s = target then (true, v)
      else if s ∈ v then (false, v)
      else hasPathList edges target fuel (succsRev edges s) (s :: v) := rfl

theorem hasPathTo_sound {edges : List AttachedPrompt} {target : Nat} :
    ∀ fuel s v, (hasPathTo edges target fuel s v).1 = true →
      Relation.ReflTransGen (stepRev edges) s target := by
  intro fuel
  induction fuel with
  | zero =>
    intro s v h
    simp [hasPathTo] at h
  | succ fuel ih =>
    have ihList : ∀ ys v, (hasPathList edges target fuel ys v).1 = true →
        ∃ y ∈ ys, Relation.ReflTransGen (stepRev edges) y target := by
      intro ys
      induction ys with
      | nil =>
        intro v h
        simp [hasPathList] at h
      | cons y ys ihys =>
        intro v h
        rw [hasPathList_cons] at h
        rcases hres : hasPathTo edges target fuel y v with ⟨b, w⟩
        rw [hres] at h
        cases b with
        | true =>
          exact ⟨y, List.mem_cons_self y ys, ih y v (by rw [hres])⟩
        | false =>
          obtain ⟨z, hz, hr⟩ := ihys w h
          exact ⟨z, List.mem_cons_of_mem y hz, hr⟩
    intro s v h
    rw [hasPathTo_succ] at h
    by_cases hst : s = target
    · exact hst ▸ Relation.ReflTransGen.refl
    · rw [if_neg hst] at h
      by_cases hv : s ∈ v
      · rw [if_pos hv] at h
        simp at h
      · rw [if_neg hv] at h
        obtain ⟨y, hy, hr⟩ := ihList _ _ h
        exact Relation.ReflTransGen.head (mem_succsRev.1 hy) hr

theorem dfsFalse (edges : List AttachedPrompt) (target : Nat) (U : Finset Nat)
    (hU : ∀ e ∈ edges, e.main_prompt_id ∈ U) :
    ∀ fuel : Nat,
      (∀ s v v₂, s ∈ U → (U \ v.toFinset).card + 1 ≤ fuel →
        hasPathTo edges target fuel s v = (false, v₂) →
        v ⊆ v₂ ∧ s ∈ v₂ ∧ s ≠ target ∧
        ∀ x ∈ v₂, x ∉ v → x ≠ target ∧ ∀ y, stepRev edges x y → y ∈ v₂) ∧
      (∀ ys v v₂, (∀ y ∈ ys, y ∈ U) → (U \ v.toFinset).card + 1 ≤ fuel →
        hasPathList edges target fuel ys v = (false, v₂) →
        v ⊆ v₂ ∧ (∀ y ∈ ys, y ∈ v₂ ∧ y ≠ target) ∧
        ∀ x ∈ v₂, x ∉ v → x ≠ target ∧ ∀ y, stepRev edges x y → y ∈ v₂) := by
  intro fuel
  induction fuel with
  | zero =>
    exact ⟨fun s v v₂ _ hf _ => absurd hf (by omega),
           fun ys v v₂ _ hf _ => absurd hf (by omega)⟩
  | succ fuel IH =>
    obtain ⟨_, ihList⟩ := IH
    have hA : ∀ s v v₂, s ∈ U → (U \ v.toFinset).card + 1 ≤ fuel + 1 →
        hasPathTo edges target (fuel + 1) s v = (false, v₂) →
        v ⊆ v₂ ∧ s ∈ v₂ ∧ s ≠ target ∧
        ∀ x ∈ v₂, x ∉ v → x ≠ target ∧ ∀ y, stepRev edges x y → y ∈ v₂ := by
      intro s v v₂ hs hfuel h
      rw [hasPathTo_succ] at h
      by_cases hst : s = target
      · rw [if_pos hst] at h
        exact absurd (congrArg Prod.fst h) (by simp)
      · rw [if_neg hst] at h
        by_cases hv : s ∈ v
        · rw [if_pos hv] at h
          obtain rfl : v = v₂ := congrArg Prod.snd h
          refine ⟨fun z hz => hz, hv, hst, ?_⟩
          intro x hx hnx
          exact absurd hx hnx
        · rw [if_neg hv] at h
          have hys : ∀ y ∈ succsRev edges s, y ∈ U := by
            intro y hy
            obtain ⟨e, he, _, hm⟩ := mem_succsRev.1 hy
            exact hm ▸ hU e he
          have hsv : s ∈ U \ v.toFinset := by
            rw [Finset.mem_sdiff]
            exact ⟨hs, by simpa using hv⟩
          have hfuel₂ : (U \ (s :: v).toFinset).card + 1 ≤ fuel := by
            have hset : U \ (s :: v).toFinset = (U \ v.toFinset).erase s := by
              rw [List.toFinset_cons, Finset.sdiff_insert]
            rw [hset, Finset.card_erase_of_mem hsv]
            have hpos : 1 ≤ (U \ v.toFinset).card :=
              Finset.card_pos.2 ⟨s, hsv⟩
            omega
          obtain ⟨hsub, hmem, hclo⟩ := ihList _ _ _ hys hfuel₂ h
          refine ⟨fun z hz => hsub (List.mem_cons_of_mem s hz),
            hsub (List.mem_cons_self s v), hst, ?_⟩
          intro x hx hnx
          by_cases hxs : x = s
          · subst hxs
            exact ⟨hst, fun y hy => (hmem y (mem_succsRev.2 hy)).1⟩
          · have hxsv : x ∉ s :: v := by
              simp only [List.mem_cons, not_or]
              exact ⟨hxs, hnx⟩
            exact hclo x hx hxsv
    refine ⟨hA, ?_⟩
    intro ys
    induction ys with
    | nil =>
      intro v v₂ _ _ h
      rw [hasPathList_nil] at h
      obtain rfl : v = v₂ := congrArg Prod.snd h
      refine ⟨fun z hz => hz, by simp, ?_⟩
      intro x hx hnx
      exact absurd hx hnx
    | cons y ys ihys =>
      intro v v₂ hys hfuel h
      rw [hasPathList_cons] at h
      rcases hres : hasPathTo edges target (fuel + 1) y v with ⟨b, w⟩
      rw [hres] at h
      cases b with
      | true => exact absurd (congrArg Prod.fst h) (by simp)
      | false =>
        obtain ⟨hvw, hyw, hyt, hclow⟩ :=
          hA y v w (hys y (List.mem_cons_self y ys)) hfuel hres
        have hwsub : v.toFinset ⊆ w.toFinset := by
          intro z hz
          rw [List.mem_toFinset] at hz ⊢
          exact hvw hz
        have hfuel₂ : (U \ w.toFinset).card + 1 ≤ fuel + 1 := by
          have := Finset.card_le_card
            (Finset.sdiff_subset_sdiff (Finset.Subset.refl U) hwsub)
          omega
        obtain ⟨hwv₂, hmem₂, hclo₂⟩ :=
          ihys w v₂ (fun z hz => hys z (List.mem_cons_of_mem y hz)) hfuel₂ h
        refine ⟨fun z hz => hwv₂ (hvw hz), ?_, ?_⟩
        · intro z hz
          rcases List.mem_cons.1 hz with rfl | hz₂
          · exact ⟨hwv₂ hyw, hyt⟩
          · exact hmem₂ z hz₂
        · intro x hx hnx
          by_cases hxw : x ∈ w
          · obtain ⟨hxt, hxc⟩ := hclow x hxw hnx
            exact ⟨hxt, fun z hz => hwv₂ (hxc z hz)⟩
          · exact hclo₂ x hx hxw

theorem wouldCreateCircle_iff (edges : List AttachedPrompt) (m a : Nat) :
    wouldCreateCircle edges m a = true ↔
      Relation.ReflTransGen (stepRev edges) a m := by
  constructor
  · intro h
    exact hasPathTo_sound _ _ _ h
  · intro hr
    unfold wouldCreateCircle
    rcases hres : hasPathTo edges m (edges.length + 2) a [] with ⟨b, v₂⟩
    cases b with
    | true => rfl
    | false =>
      exfalso
      have hU : ∀ e ∈ edges, e.main_prompt_id ∈ insert a (mains edges) := by
        intro e he
        refine Finset.mem_insert_of_mem ?_
        simp only [mains, List.mem_toFinset, List.mem_map]
        exact ⟨e, he, rfl⟩
      have hfuel : ((insert a (mains edges)) \
          ([] : List Nat).toFinset).card + 1 ≤ edges.length + 2 := by
        have h₁ : (insert a (mains edges)).card ≤ (mains edges).card + 1 :=
          Finset.card_insert_le a (mains edges)
        have h₂ : (mains edges).card ≤ edges.length := by
          have := List.toFinset_card_le (edges.map (fun e => e.main_prompt_id))
          simpa [mains] using this
        simp only [List.toFinset_nil, Finset.sdiff_empty]
        omega
      obtain ⟨_, hmemA, _, hclo⟩ :=
        (dfsFalse edges m (insert a (mains edges)) hU (edges.length + 2)).1
          a [] v₂ (Finset.mem_insert_self a _) hfuel hres
      have key : ∀ x, Relation.ReflTransGen (stepRev edges) x m →
          x ∈ v₂ → False := by
        intro x hx
        induction hx using Relation.ReflTransGen.head_induction_on with
        | refl =>
          intro hm
          exact (hclo m hm (List.not_mem_nil m)).1 rfl
        | head hstep _ ih =>
          intro hxv
          exact ih ((hclo _ hxv (List.not_mem_nil _)).2 _ hstep)
      exact key a hr hmemA

/-- C1 counterexample: the claim demands that attach(2,1) over the
acyclic edge set with the single edge 1→2, and attach(3,1) over the chain
1→2, 2→3, are both rejected with the circular-attachment violation; in
the code both calls succeed. -/
theorem attach_cycle_examples_not_rejected :
    (attachPrompt { prompts := [pA, pB], edges := [edge12] } 2 1).isOk = true ∧
    (attachPrompt
      { prompts := [pA, pB, pC], edges := [edge12, edge23] } 3 1).isOk =
        true := by
  exact ⟨by decide, by decide⟩

/-- C1 (amended): attach_prompt is rejected with the circular-attachment
violation iff there is a directed path from attached_id back to main_id
obtained by repeatedly stepping from a node X to the main endpoint of
every existing edge in which X is the attached endpoint; in particular
re-attaching the existing edge 1→2 is rejected as circular, attach(1,3)
after edges 1→2, 2→3 is rejected as circular, while attach(2,1) after
edge 1→2 and attach(3,1) after the chain pass the circle check. -/
theorem circle_check_iff_reverse_reachability :
    (∀ (edges : List AttachedPrompt) (main_id attached_id : Nat),
      wouldCreateCircle edges main_id attached_id = true ↔
        Relation.ReflTransGen (stepRev edges) attached_id main_id) ∧
    (∀ (db : DB) (main_id attached_id : Nat) (mp ap : Prompt),
      getById db.prompts main_id = some mp → mp.is_active = true →
      getById db.prompts attached_id = some ap → ap.is_active = true →
      main_id ≠ attached_id →
      (attachPrompt db main_id attached_id = .error .circular ↔
        Relation.ReflTransGen (stepRev db.edges) attached_id main_id)) ∧
    wouldCreateCircle [edge12] 1 2 = true ∧
    wouldCreateCircle [edge12, edge23] 1 3 = true ∧
    wouldCreateCircle [edge12] 2 1 = false ∧
    wouldCreateCircle [edge12, edge23] 3 1 = false := by
  refine ⟨wouldCreateCircle_iff, ?_, by decide, by decide, by decide, by decide⟩
  intro db main_id attached_id mp ap hm hma ha haa hne
  have hc1 : ¬((!mp.is_active) = true) := by simp [hma]
  have hc2 : ¬((!ap.is_active) = true) := by simp [haa]
  unfold attachPrompt
  simp only [hm, ha]
  rw [if_neg hc1, if_neg hc2, if_neg hne, ← wouldCreateCircle_iff]
  by_cases hwcc : wouldCreateCircle db.edges main_id attached_id = true
  · rw [if_pos hwcc]
    exact ⟨fun _ => hwcc, fun _ => rfl⟩
  · rw [if_neg hwcc]
    constructor
    · intro h
      exfalso
      by_cases hex : edgeExists db.edges main_id attached_id = true
      · rw [if_pos hex] at h
        exact AttachErr.noConfusion (Except.error.inj h)
      · rw [if_neg hex] at h
        by_cases hlim : 10 ≤ getAttachmentCount db.edges main_id
        · rw [if_pos hlim] at h
          exact AttachErr.noConfusion (Except.error.inj h)
        · rw [if_neg hlim] at h
          unfold repoAttachPrompt at h
          rw [if_neg hex] at h
          exact Except.noConfusion h
    · intro h
      exact absurd h hwcc

/-- C2 (code bug): starting from the empty, acyclic edge set over two
active prompts, attach(1,2) and then attach(2,1) both succeed, leaving
the edge set with the directed cycle 1 → 2 → 1, so attach_prompt does not
preserve acyclicity (the circle guard walks the wrong direction). -/
theorem attach_sequence_creates_cycle :
    attachPrompt { prompts := [pA, pB], edges := [] } 1 2 =
      .ok (edge12, { prompts := [pA, pB], edges := [edge12] }) ∧
    attachPrompt { prompts := [pA, pB], edges := [edge12] } 2 1 =
      .ok (edge21, { prompts := [pA, pB], edges := [edge12, edge21] }) ∧
    Relation.TransGen (stepFwd [edge12, edge21]) 1 1 := by
  refine ⟨by decide, by decide, ?_⟩
  exact Relation.TransGen.head
    ⟨edge12, by simp, rfl, rfl⟩
    (Relation.TransGen.single ⟨edge21, by simp, rfl, rfl⟩)

/-- C6 counterexample: re-attaching the existing edge 1→2 between active
prompts fails, but with the circular-attachment violation, not the
duplicate-edge violation the claim names (the circle check runs first and
the existing edge is a one-step walk from attached back to main). -/
theorem duplicate_attach_reports_circular :
    attachPrompt { prompts := [pA, pB], edges := [edge12] } 1 2 =
      .error .circular ∧
    AttachErr.circular ≠ AttachErr.alreadyAttached 1 2 := by
  exact ⟨by decide, by decide⟩

/-- C6 (amended): for every existing edge (main_id, attached_id) between
existing, active, distinct prompts, calling attach_prompt again fails —
but with the circular-attachment violation (the circle check precedes the
duplicate check and the existing edge is a one-step reverse walk), and no
new state is produced, so the edge set is unchanged. -/
theorem reattach_existing_edge_fails_circular :
    ∀ (db : DB) (main_id attached_id : Nat) (mp ap : Prompt),
      getById db.prompts main_id = some mp → mp.is_active = true →
      getById db.prompts attached_id = some ap → ap.is_active = true →
      main_id ≠ attached_id →
      edgeExists db.edges main_id attached_id = true →
      attachPrompt db main_id attached_id = .error .circular := by
  intro db main_id attached_id mp ap hm hma ha haa hne hex
  have hstep : stepRev db.edges attached_id main_id := by
    unfold edgeExists at hex
    rw [List.any_eq_true] at hex
    obtain ⟨e, he, hcond⟩ := hex
    rw [Bool.and_eq_true, beq_iff_eq, beq_iff_eq] at hcond
    exact ⟨e, he, hcond.2, hcond.1⟩
  have hwcc : wouldCreateCircle db.edges main_id attached_id = true :=
    (wouldCreateCircle_iff _ _ _).2 (Relation.ReflTransGen.single hstep)
  have hc1 : ¬((!mp.is_active) = true) := by simp [hma]
  have hc2 : ¬((!ap.is_active) = true) := by simp [haa]
  unfold attachPrompt
  simp only [hm, ha]
  rw [if_neg hc1, if_neg hc2, if_neg hne, if_pos hwcc]

/-- C6 witness: the amended theorem applied at the concrete database with
prompts 1, 2 and the edge 1→2. -/
theorem reattach_existing_edge_fails_circular_witness :
    attachPrompt { prompts := [pA, pB], edges := [edge12] } 1 2 =
      .error .circular :=
  reattach_existing_edge_fails_circular
    { prompts := [pA, pB], edges := [edge12] } 1 2 pA pB
    (by decide) (by decide) (by decide) (by decide) (by decide) (by decide)

/-- C7: every successful attach creates its edge with order equal to the
current maximum order of the main prompt plus one and usage_count 0; with
no existing attachments the maximum is -1, so the first edge gets order 0,
and two successive attaches to a fresh main prompt get orders 0 and 1. -/
theorem attach_order_is_max_plus_one :
    (∀ (db : DB) (main_id attached_id : Nat) (e : AttachedPrompt) (db₂ : DB),
      attachPrompt db main_id attached_id = .ok (e, db₂) →
      e.order = getMaxOrder db.edges main_id + 1 ∧
      e.usage_count = 0 ∧
      (getAttachmentCount db.edges main_id = 0 → e.order = 0)) ∧
    attachPrompt { prompts := [pA, pB, pC], edges := [] } 1 2 =
      .ok (edge12, { prompts := [pA, pB, pC], edges := [edge12] }) ∧
    attachPrompt { prompts := [pA, pB, pC], edges := [edge12] } 1 3 =
      .ok (edge13, { prompts := [pA, pB, pC], edges := [edge12, edge13] }) := by
  refine ⟨?_, by decide, by decide⟩
  intro db main_id attached_id e db₂ h
  unfold attachPrompt at h
  rcases hm : getById db.prompts main_id with _ | mp
  · rw [hm] at h
    exact Except.noConfusion h
  rcases ha : getById db.prompts attached_id with _ | ap
  · simp only [hm, ha] at h
    exact Except.noConfusion h
  simp only [hm, ha] at h
  by_cases hma : (!mp.is_active) = true
  · rw [if_pos hma] at h
    exact Except.noConfusion h
  rw [if_neg hma] at h
  by_cases haa : (!ap.is_active) = true
  · rw [if_pos haa] at h
    exact Except.noConfusion h
  rw [if_neg haa] at h
  by_cases hself : main_id = attached_id
  · rw [if_pos hself] at h
    exact Except.noConfusion h
  rw [if_neg hself] at h
  by_cases hwcc : wouldCreateCircle db.edges main_id attached_id = true
  · rw [if_pos hwcc] at h
    exact Except.noConfusion h
  rw [if_neg hwcc] at h
  by_cases hex : edgeExists db.edges main_id attached_id = true
  · rw [if_pos hex] at h
    exact Except.noConfusion h
  rw [if_neg hex] at h
  by_cases hlim : 10 ≤ getAttachmentCount db.edges main_id
  · rw [if_pos hlim] at h
    exact Except.noConfusion h
  rw [if_neg hlim] at h
  unfold repoAttachPrompt at h
  rw [if_neg hex] at h
  simp only [Except.ok.injEq, Prod.mk.injEq] at h
  obtain ⟨he, -⟩ := h
  subst he
  refine ⟨rfl, rfl, ?_⟩
  intro hcount
  have hfil : db.edges.filter
      (fun e => e.main_prompt_id == main_id) = [] := by
    have := hcount
    unfold getAttachmentCount at this
    exact List.length_eq_zero.1 this
  unfold getMaxOrder
  rw [hfil]
  rfl

/-- C7 witness: the general statement applied to the concrete first
attach of the scenario. -/
theorem attach_order_is_max_plus_one_witness :
    edge12.order = getMaxOrder ([] : List AttachedPrompt) 1 + 1 ∧
    edge12.usage_count = 0 :=
  let h := attach_order_is_max_plus_one.1
    { prompts := [pA, pB, pC], edges := [] } 1 2 edge12
    { prompts := [pA, pB, pC], edges := [edge12] } (by decide)
  ⟨h.1, h.2.1⟩

/-- C1 witness: the service-level iff applied at the concrete database
holding prompts 1, 2 and the edge 1→2: re-attaching 1→2 is rejected as
circular and the reverse walk from 2 reaches 1. -/
theorem circle_check_iff_reverse_reachability_witness :
    attachPrompt { prompts := [pA, pB], edges := [edge12] } 1 2 =
      .error .circular ↔
    Relation.ReflTransGen (stepRev [edge12]) 2 1 :=
  circle_check_iff_reverse_reachability.2.1
    { prompts := [pA, pB], edges := [edge12] } 1 2 pA pB
    (by decide) (by decide) (by decide) (by decide) (by decide)

/-- C9 (code bug): get_popular_combinations filters to usage_count > 0 and
annotates titles, but the single join on the main endpoint makes
attached_title equal to the MAIN prompt title: for the edge 1→2 with the
attached prompt titled B, the returned row carries attached_title A. -/
theorem popular_combinations_attached_title_is_main_title :
    getPopularCombinations { prompts := [pA, pB], edges := [edgeU] } 10 =
      [{ main_prompt_id := 1, attached_prompt_id := 2, usage_count := 5,
         main_title := "A", attached_title := "A" }] ∧
    (getById [pA, pB] 2).map (fun p => p.title) = some "B" ∧
    ("A" : String) ≠ "B" := by
  exact ⟨by decide, by decide, by decide⟩

/-! ### Bulk reorder of prompts -/

theorem bulkUpdateOrder_eq_map :
    ∀ (m : List (Nat × Int)) (prompts : List Prompt),
      bulkUpdateOrder prompts m = prompts.map (applyOrder m) := by
  intro m
  induction m with
  | nil =>
    intro prompts
    unfold bulkUpdateOrder
    rw [List.foldl_nil]
    have happ : applyOrder [] = fun p => p := rfl
    rw [happ, List.map_id']
  | cons kv tl ih =>
    intro prompts
    unfold bulkUpdateOrder at ih ⊢
    rw [List.foldl_cons, ih, List.map_map]
    rfl

theorem applyOrder_id (m : List (Nat × Int)) :
    ∀ p : Prompt, (applyOrder m p).id = p.id := by
  induction m with
  | nil => intro p; rfl
  | cons kv tl ih =>
    intro p
    unfold applyOrder at ih ⊢
    rw [List.foldl_cons]
    by_cases h : p.id == kv.1
    · rw [if_pos h, ih]
    · rw [if_neg h, ih]

theorem applyOrder_eq_lastVal (m : List (Nat × Int)) (p : Prompt) :
    applyOrder m p =
      match lastVal m p.id with
      | none => p
      | some v => { p with order := v } := by
  induction m using List.reverseRecOn with
  | nil => rfl
  | append_singleton m kv ih =>
    have hfold : applyOrder (m ++ [kv]) p =
        (fun q (kv : Nat × Int) =>
          if q.id == kv.1 then { q with order := kv.2 } else q)
          (applyOrder m p) kv := by
      unfold applyOrder
      rw [List.foldl_append]
      rfl
    have hrev : (m ++ [kv]).reverse = kv :: m.reverse := by
      simp
    by_cases hk : kv.1 == p.id
    · have hlast : lastVal (m ++ [kv]) p.id = some kv.2 := by
        unfold lastVal
        rw [hrev]
        simp only [List.find?, hk]
        rfl
      have hpk : ((applyOrder m p).id == kv.1) = true := by
        rw [applyOrder_id]
        rw [beq_iff_eq] at hk ⊢
        omega
      rw [hfold, hlast]
      simp only [hpk, if_true]
      rw [ih]
      rcases lastVal m p.id with _ | v <;> rfl
    · have hlast : lastVal (m ++ [kv]) p.id = lastVal m p.id := by
        unfold lastVal
        rw [hrev]
        simp only [List.find?, hk]
      have hpk : ((applyOrder m p).id == kv.1) = false := by
        rw [applyOrder_id]
        simp only [beq_iff_eq] at hk
        simp only [beq_eq_false_iff_ne]
        omega
      rw [hfold, hlast]
      simp only [hpk, Bool.false_eq_true, if_false]
      exact ih

theorem applyOrder_idem (m : List (Nat × Int)) (p : Prompt) :
    applyOrder m (applyOrder m p) = applyOrder m p := by
  rcases hlv : lastVal m p.id with _ | v
  · have h1 : applyOrder m p = p := by rw [applyOrder_eq_lastVal, hlv]
    rw [h1]
    exact h1
  · have h1 : applyOrder m p = { p with order := v } := by
      rw [applyOrder_eq_lastVal, hlv]
    rw [h1, applyOrder_eq_lastVal]
    have h2 : lastVal m ({ p with order := v } : Prompt).id = some v := hlv
    simp only [h2]

theorem pyDict_go {β : Type} (pairs : List (Nat × β)) :
    ∀ acc : List (Nat × β),
      ((acc ++ pairs).map (fun kv => kv.1)).Nodup →
      pairs.foldl (fun d kv => pyDictStep d kv.1 kv.2) acc = acc ++ pairs := by
  induction pairs with
  | nil =>
    intro acc _
    simp
  | cons kv tl ih =>
    intro acc hnd
    have hmem : kv.1 ∉ acc.map (fun kv => kv.1) := by
      rw [List.map_append] at hnd
      rw [List.nodup_append] at hnd
      intro hc
      exact hnd.2.2 hc (by simp)
    have hstep : pyDictStep acc kv.1 kv.2 = acc ++ [kv] := by
      unfold pyDictStep
      rw [if_neg]
      intro hc
      rw [List.any_eq_true] at hc
      obtain ⟨q, hq, hqk⟩ := hc
      rw [beq_iff_eq] at hqk
      exact hmem (by
        rw [List.mem_map]
        exact ⟨q, hq, hqk⟩)
    rw [List.foldl_cons, hstep, ih (acc ++ [kv]) (by simpa using hnd)]
    simp

theorem pyDict_eq_self {β : Type} (pairs : List (Nat × β))
    (h : (pairs.map (fun kv => kv.1)).Nodup) : pyDict pairs = pairs := by
  unfold pyDict
  have := pyDict_go pairs [] (by simpa using h)
  simpa using this

theorem enum_pairs_keys {β : Type} (f : Nat → β) (ids : List Nat) :
    ((ids.enum.map (fun p => (p.2, f p.1))).map (fun kv => kv.1)) = ids := by
  rw [List.map_map]
  have : ((fun kv => kv.1) ∘ fun p : Nat × Nat => (p.2, f p.1)) =
      Prod.snd := rfl
  rw [this, List.enum_map_snd]

theorem find?_reverse_of_nodup_keys {β : Type} (m : List (Nat × β)) (k : Nat)
    (h : (m.map (fun kv => kv.1)).Nodup) :
    m.reverse.find? (fun kv => kv.1 == k) = m.find? (fun kv => kv.1 == k) := by
  induction m with
  | nil => rfl
  | cons kv tl ih =>
    have hrev : (kv :: tl).reverse = tl.reverse ++ [kv] := by simp
    rw [hrev, List.find?_append]
    rw [List.map_cons, List.nodup_cons] at h
    by_cases hk : (kv.1 == k) = true
    · have hnone : tl.reverse.find? (fun kv => kv.1 == k) = none := by
        rw [List.find?_eq_none]
        intro q hq hqk
        rw [beq_iff_eq] at hqk hk
        apply h.1
        rw [List.mem_map]
        refine ⟨q, ?_, by omega⟩
        exact List.mem_reverse.1 hq
      rw [hnone]
      simp only [List.find?, hk, Option.none_orElse]
      rfl
    · have hk2 : (kv.1 == k) = false := by
        simpa using hk
      rw [ih h.2]
      simp only [List.find?, hk2]
      rcases hres : tl.find? (fun kv => kv.1 == k) with _ | q
      · simp [List.find?, hk2]
      · simp [hres]

theorem find?_enumFrom_eq_indexOf {β : Type} (f : Nat → β) (ids : List Nat)
    (pid : Nat) :
    ∀ n : Nat, pid ∈ ids →
      ((ids.enumFrom n).map (fun p => (p.2, f p.1))).find?
          (fun kv => kv.1 == pid) =
        some (pid, f (n + ids.indexOf pid)) := by
  induction ids with
  | nil =>
    intro n hmem
    exact absurd hmem (List.not_mem_nil pid)
  | cons x tl ih =>
    intro n hmem
    by_cases hx : (x == pid) = true
    · rw [beq_iff_eq] at hx
      subst hx
      simp [List.enumFrom, List.find?, List.indexOf_cons_self]
    · have hx2 : x ≠ pid := by simpa using hx
      have hmem2 : pid ∈ tl := by
        rcases List.mem_cons.1 hmem with rfl | h2
        · exact absurd rfl hx2
        · exact h2
      simp only [List.enumFrom, List.map_cons, List.find?]
      have hx3 : ((x, Int.ofNat n).1 == pid) = false := by
        simpa using hx
      rw [hx3]
      rw [ih (n + 1) hmem2]
      have harith : n + 1 + tl.indexOf pid = n + (x :: tl).indexOf pid := by
        rw [List.indexOf_cons_ne tl hx2]
        omega
      rw [harith]

/-- C8: reorder_prompts assigns to each stored prompt whose id occurs in
the ordered list the order equal to its 0-based position, leaves other
prompts untouched (ids absent from storage are skipped because no row
matches), and the operation is idempotent for every id list and starting
state. -/
theorem reorder_assigns_positions_and_idempotent :
    (∀ (ordered_ids : List Nat) (prompts : List Prompt),
      ordered_ids.Nodup →
      reorderPrompts prompts ordered_ids =
        prompts.map (fun p =>
          if p.id ∈ ordered_ids then
            { p with order := Int.ofNat (ordered_ids.indexOf p.id) }
          else p)) ∧
    (∀ (ordered_ids : List Nat) (prompts : List Prompt),
      reorderPrompts (reorderPrompts prompts ordered_ids) ordered_ids =
        reorderPrompts prompts ordered_ids) := by
  constructor
  · intro ids prompts hnd
    unfold reorderPrompts
    have hkeys : ((ids.enum.map (fun q => (q.2, Int.ofNat q.1))).map
        (fun kv => kv.1)).Nodup := by
      rw [enum_pairs_keys Int.ofNat]
      exact hnd
    rw [pyDict_eq_self _ hkeys, bulkUpdateOrder_eq_map]
    apply List.map_congr_left
    intro p _
    rw [applyOrder_eq_lastVal]
    by_cases hp : p.id ∈ ids
    · have hfind := find?_enumFrom_eq_indexOf Int.ofNat ids p.id 0 hp
      have hlv : lastVal (ids.enum.map (fun q => (q.2, Int.ofNat q.1))) p.id =
          some (Int.ofNat (ids.indexOf p.id)) := by
        unfold lastVal
        rw [find?_reverse_of_nodup_keys _ _ hkeys]
        rw [show ids.enum = ids.enumFrom 0 from rfl, hfind]
        simp
      rw [hlv, if_pos hp]
    · have hlv : lastVal (ids.enum.map (fun q => (q.2, Int.ofNat q.1))) p.id =
          none := by
        unfold lastVal
        have hnone : (ids.enum.map (fun q => (q.2, Int.ofNat q.1))).reverse.find?
            (fun kv => kv.1 == p.id) = none := by
          rw [List.find?_eq_none]
          intro q hq hqk
          rw [beq_iff_eq] at hqk
          apply hp
          have hqmem : q.1 ∈ (ids.enum.map
              (fun q => (q.2, Int.ofNat q.1))).map (fun kv => kv.1) := by
            rw [List.mem_map]
            exact ⟨q, List.mem_reverse.1 hq, rfl⟩
          rw [enum_pairs_keys Int.ofNat] at hqmem
          rw [← hqk]
          exact hqmem
        rw [hnone]
        rfl
      rw [hlv, if_neg hp]
  · intro ids prompts
    unfold reorderPrompts
    rw [bulkUpdateOrder_eq_map, bulkUpdateOrder_eq_map, List.map_map]
    apply List.map_congr_left
    intro p _
    exact applyOrder_idem _ p

/-- C8 witness: the assignment part applied at a concrete store and id
list (prompt 3 gets order 0, prompt 1 gets order 1, prompt 2 untouched,
the absent id 5 is skipped). -/
theorem reorder_assigns_positions_witness :
    reorderPrompts [pA, pB, pC] [5, 3, 1] =
      [pA, pB, pC].map (fun p =>
        if p.id ∈ [5, 3, 1] then
          { p with order := Int.ofNat ([5, 3, 1].indexOf p.id) }
        else p) :=
  reorder_assigns_positions_and_idempotent.1 [5, 3, 1] [pA, pB, pC]
    (by decide)

/-! ### Merge engine: fetch and ordering -/

theorem getById_eq_of_mem {db : List Prompt} {p : Prompt}
    (hdb : (db.map (fun q => q.id)).Nodup) (hp : p ∈ db) :
    getById db p.id = some p := by
  induction db with
  | nil => exact absurd hp (List.not_mem_nil p)
  | cons q tl ih =>
    rw [List.map_cons, List.nodup_cons] at hdb
    rcases List.mem_cons.1 hp with rfl | hp₂
    · unfold getById
      simp [List.find?]
    · have hne : (q.id == p.id) = false := by
        simp only [beq_eq_false_iff_ne]
        intro he
        apply hdb.1
        rw [he, List.mem_map]
        exact ⟨p, hp₂, rfl⟩
      unfold getById at ih ⊢
      simp only [List.find?, hne]
      exact ih hdb.2 hp₂

theorem mem_getByIds {db : List Prompt} {ids : List Nat} {p : Prompt} :
    p ∈ getByIds db ids ↔ p ∈ db ∧ p.id ∈ ids := by
  unfold getByIds
  rw [List.mem_filter]
  constructor
  · rintro ⟨h1, h2⟩
    exact ⟨h1, List.elem_iff.1 h2⟩
  · rintro ⟨h1, h2⟩
    exact ⟨h1, List.elem_iff.2 h2⟩

theorem getById_mem_and_id {db : List Prompt} {i : Nat} {p : Prompt}
    (h : getById db i = some p) : p ∈ db ∧ p.id = i := by
  unfold getById at h
  refine ⟨List.mem_of_find?_eq_some h, ?_⟩
  have := List.find?_some h
  rwa [beq_iff_eq] at this

theorem mem_orderedFetch {db : List Prompt} {ids : List Nat} {p : Prompt}
    (hdb : (db.map (fun q => q.id)).Nodup) :
    p ∈ orderedFetch db ids ↔ p ∈ db ∧ p.id ∈ ids := by
  unfold orderedFetch
  rw [List.mem_filterMap]
  constructor
  · rintro ⟨i, hi, hfind⟩
    obtain ⟨hmem, hid⟩ := getById_mem_and_id hfind
    exact ⟨hmem, hid ▸ hi⟩
  · rintro ⟨hmem, hid⟩
    exact ⟨p.id, hid, getById_eq_of_mem hdb hmem⟩

theorem orderedFetch_length {db : List Prompt} {ids : List Nat}
    (hres : ∀ i ∈ ids, ∃ p ∈ db, p.id = i) :
    (orderedFetch db ids).length = ids.length := by
  induction ids with
  | nil => rfl
  | cons i tl ih =>
    obtain ⟨p, hp, hid⟩ := hres i (List.mem_cons_self i tl)
    have hfind : (getById db i).isSome = true := by
      unfold getById
      rw [List.find?_isSome]
      exact ⟨p, hp, by simpa using hid⟩
    rcases hsome : getById db i with _ | q
    · rw [hsome] at hfind
      exact absurd hfind (by simp)
    · unfold orderedFetch
      rw [List.filterMap_cons, hsome]
      have := ih (fun j hj => hres j (List.mem_cons_of_mem i hj))
      unfold orderedFetch at this
      simp [this]

theorem getByIds_keys_nodup {db : List Prompt} {ids : List Nat}
    (hdb : (db.map (fun q => q.id)).Nodup) :
    ((getByIds db ids).map (fun q => q.id)).Nodup :=
  hdb.sublist (List.Sublist.map _ (List.filter_sublist db))

theorem getByIds_length_eq_card {db : List Prompt} {ids : List Nat}
    (hdb : (db.map (fun q => q.id)).Nodup) :
    (getByIds db ids).length =
      (ids.toFinset.filter (fun i => ∃ p ∈ db, p.id = i)).card := by
  have hnd : ((getByIds db ids).map (fun q => q.id)).Nodup :=
    getByIds_keys_nodup hdb
  have hlen : (getByIds db ids).length =
      ((getByIds db ids).map (fun q => q.id)).length := by
    rw [List.length_map]
  rw [hlen, ← List.toFinset_card_of_nodup hnd]
  congr 1
  ext j
  rw [List.mem_toFinset, List.mem_map, Finset.mem_filter, List.mem_toFinset]
  constructor
  · rintro ⟨p, hp, rfl⟩
    obtain ⟨hpdb, hpid⟩ := mem_getByIds.1 hp
    exact ⟨hpid, p, hpdb, rfl⟩
  · rintro ⟨hj, p, hp, rfl⟩
    exact ⟨p, mem_getByIds.2 ⟨hp, hj⟩, rfl⟩

theorem toFinset_card_lt_of_not_nodup {ids : List Nat} (h : ¬ids.Nodup) :
    ids.toFinset.card < ids.length := by
  rcases Nat.lt_or_ge ids.toFinset.card ids.length with hlt | hge
  · exact hlt
  · exfalso
    apply h
    have hle : ids.toFinset.card ≤ ids.length := List.toFinset_card_le ids
    have heq : ids.toFinset.card = ids.length := Nat.le_antisymm hle hge
    rw [List.card_toFinset] at heq
    have hsub : ids.dedup.Sublist ids := List.dedup_sublist ids
    have := hsub.eq_of_length heq
    rw [← this]
    exact List.nodup_dedup ids

theorem getByIds_keys_toFinset (db : List Prompt) (ids : List Nat) :
    ((getByIds db ids).map (fun q => q.id)).toFinset =
      ids.toFinset.filter (fun i => ∃ p ∈ db, p.id = i) := by
  ext j
  rw [List.mem_toFinset, List.mem_map, Finset.mem_filter, List.mem_toFinset]
  constructor
  · rintro ⟨p, hp, rfl⟩
    obtain ⟨hpdb, hpid⟩ := mem_getByIds.1 hp
    exact ⟨hpid, p, hpdb, rfl⟩
  · rintro ⟨hj, p, hp, rfl⟩
    exact ⟨p, mem_getByIds.2 ⟨hp, hj⟩, rfl⟩

theorem two_le_length_of_not_nodup {ids : List Nat} (h : ¬ids.Nodup) :
    2 ≤ ids.length := by
  rcases ids with _ | ⟨x, _ | ⟨y, tl⟩⟩
  · exact absurd List.nodup_nil h
  · exact absurd (List.nodup_singleton x) h
  · simp only [List.length_cons]
    omega

theorem getByIds_length_ne_of_dup {db : List Prompt} {ids : List Nat}
    (hdup : ¬ids.Nodup) (hres : ∀ i ∈ ids, ∃ p ∈ db, p.id = i)
    (hdb : (db.map (fun p => p.id)).Nodup) :
    (getByIds db ids).length ≠ ids.length := by
  rw [getByIds_length_eq_card hdb]
  have hfil : ids.toFinset.filter (fun i => ∃ p ∈ db, p.id = i) =
      ids.toFinset := by
    apply Finset.filter_true_of_mem
    intro i hi
    exact hres i (List.mem_toFinset.1 hi)
  rw [hfil]
  exact Nat.ne_of_lt (toFinset_card_lt_of_not_nodup hdup)

theorem missing_ids_empty_of_resolve {db : List Prompt} {ids : List Nat}
    (hres : ∀ i ∈ ids, ∃ p ∈ db, p.id = i) :
    ids.toFinset \ ((getByIds db ids).map (fun q => q.id)).toFinset = ∅ := by
  rw [getByIds_keys_toFinset, ← Finset.filter_not]
  apply Finset.filter_false_of_mem
  intro i hi
  simp only [not_not]
  exact hres i (List.mem_toFinset.1 hi)

/-- C5 counterexample: with prompts 1 and 2 both existing, the duplicated
id list [1,1,2] makes merge_prompts fail with the not-found error naming
the empty id set — not with an error rejecting the duplicates — even
though every supplied id resolves. -/
theorem merge_duplicate_ids_give_empty_notFound :
    mergePrompts [pA, pB] [1, 1, 2] "simple" { } =
      .error (.notFound ∅) ∧
    (∀ i ∈ [1, 1, 2], ∃ p ∈ [pA, pB], p.id = i) := by
  exact ⟨by decide, by decide⟩

/-- C5 (amended): merge_prompts rejects empty and single-id lists before
composing; when some ids do not resolve it fails with a not-found error
naming exactly the unresolved ids; and when the list contains a duplicate
while every id resolves, the fetch returns fewer prompts than ids were
supplied, so it fails with the not-found error naming the empty set —
merge_prompts has no duplicate check of its own. -/
theorem merge_precondition_failures :
    (∀ (db : List Prompt) (s : String) (o : MergeOptions),
      mergePrompts db [] s o = .error .noIds) ∧
    (∀ (db : List Prompt) (s : String) (o : MergeOptions) (i : Nat),
      mergePrompts db [i] s o = .error .tooFew) ∧
    (∀ (db : List Prompt) (ids : List Nat) (s : String) (o : MergeOptions),
      2 ≤ ids.length →
      (∃ i ∈ ids, ¬ ∃ p ∈ db, p.id = i) →
      (db.map (fun p => p.id)).Nodup →
      mergePrompts db ids s o =
        .error (.notFound
          (ids.toFinset.filter (fun i => ¬ ∃ p ∈ db, p.id = i)))) ∧
    (∀ (db : List Prompt) (ids : List Nat) (s : String) (o : MergeOptions),
      ¬ids.Nodup →
      (∀ i ∈ ids, ∃ p ∈ db, p.id = i) →
      (db.map (fun p => p.id)).Nodup →
      mergePrompts db ids s o = .error (.notFound ∅)) := by
  refine ⟨?_, ?_, ?_, ?_⟩
  · intro db s o
    simp [mergePrompts]
  · intro db s o i
    simp [mergePrompts]
  · intro db ids s o hlen hmissing hdb
    have hne : ids ≠ [] := by
      intro hc
      rw [hc] at hlen
      exact absurd hlen (by decide)
    have hlt : ¬(ids.length < 2) := by omega
    have hfetch : (getByIds db ids).length ≠ ids.length := by
      rw [getByIds_length_eq_card hdb]
      obtain ⟨i, hi, hnores⟩ := hmissing
      have hssub : ids.toFinset.filter (fun i => ∃ p ∈ db, p.id = i) ⊂
          ids.toFinset := by
        rw [Finset.ssubset_iff_of_subset (Finset.filter_subset _ _)]
        refine ⟨i, List.mem_toFinset.2 hi, ?_⟩
        rw [Finset.mem_filter]
        rintro ⟨-, hc⟩
        exact hnores hc
      have h1 := Finset.card_lt_card hssub
      have h2 := List.toFinset_card_le ids
      omega
    unfold mergePrompts
    rw [if_neg hne, if_neg hlt, if_pos hfetch]
    rw [getByIds_keys_toFinset, ← Finset.filter_not]
  · intro db ids s o hdup hres hdb
    have h2 := two_le_length_of_not_nodup hdup
    have hne : ids ≠ [] := by
      intro hc
      rw [hc] at h2
      exact absurd h2 (by decide)
    have hlt : ¬(ids.length < 2) := by omega
    have hfetch := getByIds_length_ne_of_dup hdup hres hdb
    unfold mergePrompts
    rw [if_neg hne, if_neg hlt, if_pos hfetch,
      missing_ids_empty_of_resolve hres]

/-- C5 witness: the duplicate branch applied at the concrete store with
prompts 1 and 2 and the id list [1,1,2]. -/
theorem merge_precondition_failures_witness :
    mergePrompts [pA, pB] [1, 1, 2] "numbered" { } =
      .error (.notFound ∅) :=
  merge_precondition_failures.2.2.2 [pA, pB] [1, 1, 2] "numbered" { }
    (by decide) (by decide) (by decide)

/-- C10: validate_merge on a length-two-or-more id list whose entries all
resolve but which contains a duplicate returns valid = false with exactly
the duplicate-ids error followed by a prompts-not-found error whose
reported missing set is empty (the repository lookup deduplicates, so
fewer prompts than ids come back although none is missing). -/
theorem validate_duplicate_reports_empty_missing :
    ∀ (db : List Prompt) (ids : List Nat),
      ¬ids.Nodup →
      (∀ i ∈ ids, ∃ p ∈ db, p.id = i) →
      (db.map (fun p => p.id)).Nodup →
      (validateMerge db ids).valid = false ∧
      (validateMerge db ids).errors =
        [.duplicateIds, .promptsNotFound ∅] := by
  intro db ids hdup hres hdb
  have h2 := two_le_length_of_not_nodup hdup
  have hc1 : ¬(ids.length < 2) := by omega
  have hc2 : ids.toFinset.card ≠ ids.length :=
    Nat.ne_of_lt (toFinset_card_lt_of_not_nodup hdup)
  have hc3 := getByIds_length_ne_of_dup hdup hres hdb
  have hmiss := missing_ids_empty_of_resolve hres
  unfold validateMerge
  simp only [if_neg hc1, if_pos hc2, if_pos hc3, hmiss, List.nil_append,
    List.singleton_append, List.isEmpty_cons]
  exact ⟨trivial, trivial⟩

/-- C10 witness: the theorem applied at the concrete store with prompts 1
and 2 and the duplicated id list [1,1,2]. -/
theorem validate_duplicate_reports_empty_missing_witness :
    (validateMerge [pA, pB] [1, 1, 2]).valid = false ∧
    (validateMerge [pA, pB] [1, 1, 2]).errors =
      [.duplicateIds, .promptsNotFound ∅] :=
  validate_duplicate_reports_empty_missing [pA, pB] [1, 1, 2]
    (by decide) (by decide) (by decide)

theorem lookup_eq_find? {β : Type} :
    ∀ (m : List (Nat × β)) (k : Nat),
      List.lookup k m = Option.map (fun kv => kv.2)
        (m.find? (fun kv => kv.1 == k)) := by
  intro m k
  induction m with
  | nil => rfl
  | cons kv tl ih =>
    rcases kv with ⟨a, b⟩
    by_cases h : (k == a) = true
    · have h2 : (a == k) = true := by
        rw [beq_iff_eq] at h ⊢
        omega
      simp [List.lookup, List.find?, h, h2]
    · have h1 : (k == a) = false := by simpa using h
      have h2 : (a == k) = false := by
        rw [beq_eq_false_iff_ne] at h1 ⊢
        omega
      simp [List.lookup, List.find?, h1, h2, ih]

theorem enum_swap_keys (ids : List Nat) :
    ((ids.enum.map (fun p => (p.2, p.1))).map (fun kv => kv.1)) = ids := by
  rw [List.map_map]
  have : ((fun kv : Nat × Nat => kv.1) ∘ fun p : Nat × Nat => (p.2, p.1)) =
      Prod.snd := rfl
  rw [this, List.enum_map_snd]

theorem find?_enum_swap_eq_indexOf (ids : List Nat) (pid : Nat) :
    ∀ n : Nat, pid ∈ ids →
      ((ids.enumFrom n).map (fun p => (p.2, p.1))).find?
          (fun kv => kv.1 == pid) =
        some (pid, n + ids.indexOf pid) := by
  induction ids with
  | nil =>
    intro n hmem
    exact absurd hmem (List.not_mem_nil pid)
  | cons x tl ih =>
    intro n hmem
    by_cases hx : (x == pid) = true
    · rw [beq_iff_eq] at hx
      subst hx
      simp [List.enumFrom, List.find?, List.indexOf_cons_self]
    · have hx2 : x ≠ pid := by simpa using hx
      have hmem2 : pid ∈ tl := by
        rcases List.mem_cons.1 hmem with rfl | h2
        · exact absurd rfl hx2
        · exact h2
      simp only [List.enumFrom, List.map_cons, List.find?]
      have hx3 : ((x, n).1 == pid) = false := by
        simpa using hx
      rw [hx3, ih (n + 1) hmem2]
      have harith : n + 1 + tl.indexOf pid = n + (x :: tl).indexOf pid := by
        rw [List.indexOf_cons_ne tl hx2]
        omega
      rw [harith]

theorem idOrderKey_eq_indexOf {ids : List Nat} (hnd : ids.Nodup) {i : Nat}
    (hi : i ∈ ids) : idOrderKey ids i = ids.indexOf i := by
  unfold idOrderKey
  have hkeys : ((ids.enum.map (fun p => (p.2, p.1))).map
      (fun kv => kv.1)).Nodup := by
    rw [enum_swap_keys]
    exact hnd
  rw [pyDict_eq_self _ hkeys, lookup_eq_find?,
    show ids.enum = ids.enumFrom 0 from rfl,
    find?_enum_swap_eq_indexOf ids i 0 hi]
  simp

theorem indexOf_inj_of_mem {ids : List Nat} {i j : Nat} (hi : i ∈ ids)
    (hj : j ∈ ids) (h : ids.indexOf i = ids.indexOf j) : i = j := by
  have h1 := List.indexOf_get (List.indexOf_lt_length.2 hi)
  have h2 := List.indexOf_get (List.indexOf_lt_length.2 hj)
  calc i = ids.get ⟨ids.indexOf i, List.indexOf_lt_length.2 hi⟩ := h1.symm
    _ = ids.get ⟨ids.indexOf j, List.indexOf_lt_length.2 hj⟩ := by
        exact congrArg ids.get (Fin.ext h)
    _ = j := h2

theorem pairwise_indexOf_lt {ids : List Nat} (hnd : ids.Nodup) :
    ids.Pairwise (fun i j => ids.indexOf i < ids.indexOf j) := by
  rw [List.pairwise_iff_getElem]
  intro a b ha hb hab
  have hkey : ∀ (c : Nat) (hc : c < ids.length),
      ids.indexOf (ids[c]) = c := by
    intro c hc
    have hgm : ids[c] ∈ ids := List.getElem_mem hc
    have hlt : ids.indexOf ids[c] < ids.length :=
      List.indexOf_lt_length.2 hgm
    have hg : ids[ids.indexOf ids[c]] = ids[c] := by
      have hig := List.indexOf_get hlt
      rw [List.get_eq_getElem] at hig
      exact hig
    exact (hnd.getElem_inj_iff).1 hg
  rw [hkey a ha, hkey b hb]
  exact hab

theorem sortByIdOrder_eq_orderedFetch {db : List Prompt} {ids : List Nat}
    (hnd : ids.Nodup) (hdb : (db.map (fun p => p.id)).Nodup) :
    sortByIdOrder ids (getByIds db ids) = orderedFetch db ids := by
  haveI hTot : IsTotal Prompt
      (fun p q => idOrderKey ids p.id ≤ idOrderKey ids q.id) :=
    ⟨fun a b => Nat.le_total _ _⟩
  haveI hTrans : IsTrans Prompt
      (fun p q => idOrderKey ids p.id ≤ idOrderKey ids q.id) :=
    ⟨fun a b c hab hbc => Nat.le_trans hab hbc⟩
  haveI hAnti : IsAntisymm Prompt
      (fun p q => idOrderKey ids p.id < idOrderKey ids q.id) :=
    ⟨fun a b h1 h2 => absurd h2 (Nat.lt_asymm h1)⟩
  have hperm1 : List.Perm (sortByIdOrder ids (getByIds db ids))
      (getByIds db ids) :=
    List.perm_insertionSort _ _
  have hsorted : (sortByIdOrder ids (getByIds db ids)).Pairwise
      (fun p q => idOrderKey ids p.id ≤ idOrderKey ids q.id) :=
    List.sorted_insertionSort _ _
  have hidne : (getByIds db ids).Pairwise (fun p q => p.id ≠ q.id) :=
    List.pairwise_map.1 (getByIds_keys_nodup hdb)
  have hkne : (getByIds db ids).Pairwise
      (fun p q => idOrderKey ids p.id ≠ idOrderKey ids q.id) := by
    refine hidne.imp_of_mem ?_
    intro p q hp hq hne hkeq
    apply hne
    have hpid : p.id ∈ ids := (mem_getByIds.1 hp).2
    have hqid : q.id ∈ ids := (mem_getByIds.1 hq).2
    rw [idOrderKey_eq_indexOf hnd hpid, idOrderKey_eq_indexOf hnd hqid]
      at hkeq
    exact indexOf_inj_of_mem hpid hqid hkeq
  have hkne₂ : (sortByIdOrder ids (getByIds db ids)).Pairwise
      (fun p q => idOrderKey ids p.id ≠ idOrderKey ids q.id) :=
    (hperm1.pairwise_iff (fun h he => h he.symm)).2 hkne
  have hstrict₁ : (sortByIdOrder ids (getByIds db ids)).Pairwise
      (fun p q => idOrderKey ids p.id < idOrderKey ids q.id) :=
    (hsorted.and hkne₂).imp (fun hrq => Nat.lt_of_le_of_ne hrq.1 hrq.2)
  have hstrict₂ : (orderedFetch db ids).Pairwise
      (fun p q => idOrderKey ids p.id < idOrderKey ids q.id) := by
    unfold orderedFetch
    rw [List.pairwise_filterMap]
    refine (pairwise_indexOf_lt hnd).imp_of_mem ?_
    intro i j hi hj hlt p hp q hq
    rw [Option.mem_def] at hp hq
    obtain ⟨-, hpid⟩ := getById_mem_and_id hp
    obtain ⟨-, hqid⟩ := getById_mem_and_id hq
    rw [hpid, hqid, idOrderKey_eq_indexOf hnd hi,
      idOrderKey_eq_indexOf hnd hj]
    exact hlt
  have hnodup₁ : (getByIds db ids).Nodup :=
    (List.Nodup.of_map _ hdb).filter _
  have hnodup₂ : (orderedFetch db ids).Nodup :=
    hstrict₂.imp (fun hlt he => absurd (he ▸ hlt) (Nat.lt_irrefl _))
  have hperm2 : List.Perm (getByIds db ids) (orderedFetch db ids) := by
    apply List.perm_of_nodup_nodup_toFinset_eq hnodup₁ hnodup₂
    ext p
    rw [List.mem_toFinset, List.mem_toFinset, mem_getByIds,
      mem_orderedFetch hdb]
  exact List.eq_of_perm_of_sorted (hperm1.trans hperm2) hstrict₁ hstrict₂

/-- C3: for at least two distinct, all-resolving identifiers and any
strategy and options, merge_prompts composes the strategy over the
prompts re-sorted into the order of the input identifier list — the
canonical ordered fetch — and the metadata prompt_titles follow the same
input order, regardless of how the repository (the db list) orders its
rows. -/
theorem merge_preserves_input_order :
    ∀ (db : List Prompt) (ids : List Nat) (strategy : String)
      (o : MergeOptions),
      2 ≤ ids.length → ids.Nodup →
      (db.map (fun p => p.id)).Nodup →
      (∀ i ∈ ids, ∃ p ∈ db, p.id = i) →
      mergePrompts db ids strategy o =
        (renderStrategy strategy o (orderedFetch db ids)).map
          (fun content =>
            { merged_content := content, strategy := strategy,
              prompt_count := ids.length, prompt_ids := ids,
              prompt_titles :=
                (orderedFetch db ids).map (fun p => p.title) }) := by
  intro db ids strategy o hlen hnd hdb hres
  have hne : ids ≠ [] := by
    intro hc
    rw [hc] at hlen
    exact absurd hlen (by decide)
  have hlt : ¬(ids.length < 2) := by omega
  have hfl : (getByIds db ids).length = ids.length := by
    calc (getByIds db ids).length
        = (sortByIdOrder ids (getByIds db ids)).length :=
          (List.Perm.length_eq (List.perm_insertionSort _ _)).symm
      _ = (orderedFetch db ids).length := by
          rw [sortByIdOrder_eq_orderedFetch hnd hdb]
      _ = ids.length := orderedFetch_length hres
  have hnne : ¬((getByIds db ids).length ≠ ids.length) := fun hc => hc hfl
  unfold mergePrompts
  simp only [if_neg hne, if_neg hlt]
  rw [sortByIdOrder_eq_orderedFetch hnd hdb, orderedFetch_length hres]
  rw [if_neg hnne]

/-- C3 witness: the theorem applied at a concrete store [1,2,3] with the
id list [3,1,2], showing the merged result and titles follow the input
order 3, 1, 2 whatever the storage order. -/
theorem merge_preserves_input_order_witness :
    mergePrompts [pA, pB, pC] [3, 1, 2] "simple" { } =
      (renderStrategy "simple" { } (orderedFetch [pA, pB, pC] [3, 1, 2])).map
        (fun content =>
          { merged_content := content, strategy := "simple",
            prompt_count := 3, prompt_ids := [3, 1, 2],
            prompt_titles :=
              (orderedFetch [pA, pB, pC] [3, 1, 2]).map
                (fun p => p.title) }) :=
  merge_preserves_input_order [pA, pB, pC] [3, 1, 2] "simple" { }
    (by decide) (by decide) (by decide) (by decide)

/-! ### Template substitution -/

theorem replaceCharsAux_noop :
    ∀ (fuel : Nat) (s pat rep : List Char),
      isInfixChars pat s = false → replaceCharsAux pat rep fuel s = s := by
  intro fuel
  induction fuel with
  | zero =>
    intro s pat rep _
    cases s <;> rfl
  | succ fuel ih =>
    intro s pat rep hinf
    rcases s with _ | ⟨c, cs⟩
    · rfl
    · rw [isInfixChars] at hinf
      rw [Bool.or_eq_false_iff] at hinf
      rw [replaceCharsAux, if_neg (by simp [hinf.1])]
      rw [ih cs pat rep hinf.2]

theorem pyReplace_not_contains (s pat rep : String)
    (h : strContains s pat = false) (hne : pat ≠ "") :
    pyReplace s pat rep = s := by
  unfold pyReplace
  unfold strContains at h
  rcases hp : pat.toList with _ | ⟨c, cs⟩
  · exfalso
    apply hne
    cases pat with
    | mk data =>
      simp only [String.toList] at hp
      rw [hp]
  · rw [hp] at h
    unfold replaceChars
    rw [replaceCharsAux_noop _ _ _ _ h]
    rfl

theorem pyReplace_full (s v : String) (hne : s ≠ "") :
    pyReplace s s v = v := by
  unfold pyReplace replaceChars
  rcases hp : s.toList with _ | ⟨c, cs⟩
  · exfalso
    apply hne
    cases s with
    | mk data =>
      simp only [String.toList] at hp
      rw [hp]
  · have hpre : (c :: cs).isPrefixOf (c :: cs) = true :=
      List.isPrefixOf_iff_prefix.2 (List.prefix_refl (c :: cs))
    show (replaceCharsAux (c :: cs) v.toList (cs.length + 1)
      (c :: cs)).asString = v
    rw [replaceCharsAux, if_pos hpre]
    rw [List.drop_length]
    rw [show replaceCharsAux (c :: cs) v.toList cs.length [] = [] from by
      cases cs.length <;> rfl]
    rw [List.append_nil]
    rfl

theorem templateVars_pair (p₁ p₂ : Prompt) :
    templateVars [p₁, p₂] =
      [("count", "2"),
       ("titles", String.intercalate ", " [p₁.title, p₂.title]),
       ("prompts", String.intercalate "

" [p₁.content, p₂.content]),
       ("prompt_1", p₁.title ++ "

" ++ p₁.content),
       ("title_1", p₁.title),
       ("content_1", p₁.content),
       ("description_1", p₁.description.getD ""),
       ("prompt_2", p₂.title ++ "

" ++ p₂.content),
       ("title_2", p₂.title),
       ("content_2", p₂.content),
       ("description_2", p₂.description.getD "")] := by
  unfold templateVars
  simp [List.enumFrom]
  exact ⟨rfl, rfl, rfl, rfl, rfl, rfl, rfl, rfl, rfl⟩

/-- C4 counterexample: a prompt title containing the placeholder text for
content_2 is spliced in by the titles substitution and then expanded by
the later content_2 replacement: the output "Ac2, B" no longer contains
the placeholder text the claim says must appear verbatim. -/
theorem template_value_placeholder_reexpanded :
    structuredMerge [cp1, cp2] (ph "titles") = .ok "Ac2, B" ∧
    strContains cp1.title (ph "content_2") = true ∧
    strContains "Ac2, B" (ph "content_2") = false := by
  exact ⟨by decide, by decide, by decide⟩

/-- C4 (amended): structured_merge substitutes each braced key by its
value via sequential literal replacement in the fixed dict order (count,
titles, prompts, then the per-index group of each prompt), with the empty
string for a missing description; placeholder-shaped text inside a
substituted value survives verbatim when its key was already processed
(count, substituted first, always survives) but is itself expanded when
its key comes later (content_2 inside prompt 1 title is replaced). -/
theorem template_sequential_substitution :
    (∀ (prompts : List Prompt) (t : String), t ≠ "" →
      structuredMerge prompts t =
        .ok ((templateVars prompts).foldl
          (fun r kv => pyReplace r (ph kv.1) kv.2) t)) ∧
    (∀ p₁ p₂ : Prompt, p₂.description = none →
      structuredMerge [p₁, p₂] (ph "description_2") = .ok "") ∧
    (∀ p₁ p₂ : Prompt, structuredMerge [p₁, p₂] (ph "count") = .ok "2") ∧
    structuredMerge [cpCount, cp2] (ph "titles") =
      .ok (ph "count" ++ ", B") ∧
    structuredMerge [cp1, cp2] (ph "titles") = .ok "Ac2, B" ∧
    structuredMerge [pA, pB] (ph "count" ++ ":" ++ ph "title_1") =
      .ok "2:A" := by
  refine ⟨?_, ?_, ?_, by decide, by decide, by decide⟩
  · intro prompts t ht
    unfold structuredMerge
    rw [if_neg ht]
  · intro p₁ p₂ hdesc
    unfold structuredMerge
    rw [if_neg (by decide)]
    rw [templateVars_pair, hdesc]
    simp only [List.foldl_cons, List.foldl_nil]
    rw [pyReplace_not_contains (ph "description_2") (ph "count") "2"
        (by decide) (by decide),
      pyReplace_not_contains (ph "description_2") (ph "titles") _
        (by decide) (by decide),
      pyReplace_not_contains (ph "description_2") (ph "prompts") _
        (by decide) (by decide),
      pyReplace_not_contains (ph "description_2") (ph "prompt_1") _
        (by decide) (by decide),
      pyReplace_not_contains (ph "description_2") (ph "title_1") _
        (by decide) (by decide),
      pyReplace_not_contains (ph "description_2") (ph "content_1") _
        (by decide) (by decide),
      pyReplace_not_contains (ph "description_2") (ph "description_1") _
        (by decide) (by decide),
      pyReplace_not_contains (ph "description_2") (ph "prompt_2") _
        (by decide) (by decide),
      pyReplace_not_contains (ph "description_2") (ph "title_2") _
        (by decide) (by decide),
      pyReplace_not_contains (ph "description_2") (ph "content_2") _
        (by decide) (by decide)]
    rw [pyReplace_full (ph "description_2") _ (by decide)]
    rfl
  · intro p₁ p₂
    unfold structuredMerge
    rw [if_neg (by decide)]
    rw [templateVars_pair]
    simp only [List.foldl_cons, List.foldl_nil]
    rw [pyReplace_full (ph "count") "2" (by decide)]
    rw [pyReplace_not_contains "2" (ph "titles") _ (by decide) (by decide),
      pyReplace_not_contains "2" (ph "prompts") _ (by decide) (by decide),
      pyReplace_not_contains "2" (ph "prompt_1") _ (by decide) (by decide),
      pyReplace_not_contains "2" (ph "title_1") _ (by decide) (by decide),
      pyReplace_not_contains "2" (ph "content_1") _ (by decide) (by decide),
      pyReplace_not_contains "2" (ph "description_1") _
        (by decide) (by decide),
      pyReplace_not_contains "2" (ph "prompt_2") _ (by decide) (by decide),
      pyReplace_not_contains "2" (ph "title_2") _ (by decide) (by decide),
      pyReplace_not_contains "2" (ph "content_2") _ (by decide) (by decide),
      pyReplace_not_contains "2" (ph "description_2") _
        (by decide) (by decide)]

/-- C4 witness: the sequential-substitution equation applied at a
concrete prompt list and template. -/
theorem template_sequential_substitution_witness :
    structuredMerge [cp1, cp2] (ph "count") =
      .ok ((templateVars [cp1, cp2]).foldl
        (fun r kv => pyReplace r (ph kv.1) kv.2) (ph "count")) :=
  template_sequential_substitution.1 [cp1, cp2] (ph "count") (by decide)

end PromptManager
